import Mathlib

/-!
Shallow embedding of the steganography heuristic detector (`script.js`).

Modelling conventions:
* A byte is `Fin 256`, matching the `Uint8Array` views the code works on.
* JavaScript numbers are modelled exactly: integer-valued quantities as `ℕ`/`ℤ`,
  fractional quantities as `ℚ`, and `Math.log2`-derived quantities as `ℝ`.
  The literals `0.6`, `0.4`, `0.3` are modelled as the exact rationals
  `3/5`, `2/5`, `3/10`; for the integer-valued scores the code feeds these
  expressions, the double rounding error never crosses a comparison or
  rounding boundary, so the idealisation is exact on all reachable inputs.
* JavaScript `NaN` (which arises in `analyzeLSB` from `0/0` on an empty grid
  and then propagates through `Math.round`, `Math.min`, arithmetic and
  `toFixed`) is modelled by `none : Option ℤ` at the score level; every
  comparison against `NaN` is false, which the embedding reflects explicitly.
* A backward `for` loop (`for (let i = hi; i >= 0; i--)`) is `scanDown`
  applied to `hi + 1`; JavaScript's negative start bounds (loop never runs)
  correspond to natural subtraction truncating at `0`.
* `undefined` reads past the end of a `Uint8Array` are modelled with `l[i]?`;
  any equality test of `undefined` against a number is false, matching
  `none == some b` being false.
-/

namespace Steg

abbrev Byte := Fin 256

/-! ### ByteStatistics (`printableFraction`, `shannonEntropy`) -/

/-- Embeds `printableFraction` from `script.js`: the fraction of bytes in the
printable ASCII range `[32, 126]`, `0` for an empty input. -/
def printableFraction (data : List Byte) : ℚ :=
  let count := data.countP (fun b => decide (32 ≤ b.val ∧ b.val ≤ 126))
  if data.length = 0 then 0 else (count : ℚ) / (data.length : ℚ)

/-- The denominator used by `shannonEntropy`: `bytes.length || 1` in the code. -/
def entropyDen (bytes : List Byte) : ℕ :=
  if bytes.length = 0 then 1 else bytes.length

/-- Embeds `shannonEntropy` from `script.js`: `freq[b]` is the number of
occurrences of byte value `b`, zero-frequency values are skipped (the code
guards with `if (c)`), and `H -= p * Math.log2(p)` accumulates over the rest. -/
noncomputable def shannonEntropy (bytes : List Byte) : ℝ :=
  ∑ v : Byte,
    if bytes.count v = 0 then 0
    else -(((bytes.count v : ℝ) / (entropyDen bytes : ℝ)) *
            Real.logb 2 ((bytes.count v : ℝ) / (entropyDen bytes : ℝ)))

/-! ### SignatureScanner (`findSignature`) -/

/-- The static signature table from `findSignature`, in source order.
Note the APK entry repeats the ZIP byte pattern. -/
def sigTable : List (String × List Byte) :=
  [("ZIP", [0x50, 0x4B, 0x03, 0x04]),
   ("APK", [0x50, 0x4B, 0x03, 0x04]),
   ("PDF", [0x25, 0x50, 0x44, 0x46]),
   ("RAR", [0x52, 0x61, 0x72, 0x21]),
   ("EXE", [0x4D, 0x5A])]

/-- The inner `for (let j ...)` loop of `findSignature`: does `pat` occur
byte-for-byte in `data` starting at offset `i`?  An out-of-range read is
`undefined` and never equals a table byte. -/
def matchAt (data : List Byte) : ℕ → List Byte → Bool
  | _, [] => true
  | i, b :: bs => (data[i]? == some b) && matchAt data (i + 1) bs

/-- The inner `for (let sig of sigs)` loop of `findSignature`: the name of the
first table entry matching at offset `i`, if any. -/
def sigAt (data : List Byte) (i : ℕ) : Option String :=
  (sigTable.find? (fun s => matchAt data i s.2)).map (fun s => s.1)

/-- The outer loop of `findSignature`: try offsets `i, i+1, ...` for `fuel`
iterations, returning the first match. -/
def scanUp (data : List Byte) : ℕ → ℕ → Option String
  | _, 0 => none
  | i, fuel + 1 =>
    match sigAt data i with
    | some s => some s
    | none => scanUp data (i + 1) fuel

/-- Embeds `findSignature` from `script.js`: the loop runs
`for (let i = 0; i < data.length - 8; i++)`, so offsets `0 ≤ i < len - 8`
(no iterations at all when `len ≤ 8`, matching the negative JS bound). -/
def findSignature (data : List Byte) : Option String :=
  scanUp data 0 (data.length - 8)

/-- Bounded, executable form of "no signature-table entry occurs at any offset
other than `k`" (offsets at or past the end of the buffer never match, see
`sigAt_none_of_length_le`). -/
def entryElsewhere (data : List Byte) (k : ℕ) : Bool :=
  (List.range data.length).any (fun i => (i != k) && (sigAt data i).isSome)

/-! ### Number-to-string formatting (JavaScript `toFixed`) -/

/-- Left-pads a digit string with zeros to width `w`. -/
def padZeros (w : ℕ) (s : String) : String :=
  String.mk (List.replicate (w - s.length) '0') ++ s

/-- Renders the integer `n` (understood as a fixed-point value scaled by
`10 ^ digits`) with a decimal point, as `toFixed` does. -/
def decimalString (digits : ℕ) (n : ℤ) : String :=
  (if n < 0 then "-" else "") ++
    toString (n.natAbs / 10 ^ digits) ++ "." ++
    padZeros digits (toString (n.natAbs % 10 ^ digits))

/-- JavaScript `x.toFixed(digits)` for an exact rational `x`: round to the
nearest multiple of `10 ^ (-digits)`, ties away from the smaller integer. -/
def toFixedQ (digits : ℕ) (x : ℚ) : String :=
  decimalString digits (round (x * 10 ^ digits))

/-- JavaScript `x.toFixed(digits)` for a real `x` (used for the entropy). -/
noncomputable def toFixedR (digits : ℕ) (x : ℝ) : String :=
  decimalString digits (round (x * 10 ^ digits))

/-! ### TailAnalyzer (`analyzeImage` lines 42-65, `analyzeTail`) -/

/-- PNG magic test from `analyzeImage`: `view[0..3] = 89 50 4E 47`. -/
def isPNG (v : List Byte) : Bool :=
  (v[0]? == some 0x89) && (v[1]? == some 0x50) &&
  (v[2]? == some 0x4E) && (v[3]? == some 0x47)

/-- JPEG magic test from `analyzeImage`: `view[0..2] = FF D8 FF`. -/
def isJPG (v : List Byte) : Bool :=
  (v[0]? == some 0xFF) && (v[1]? == some 0xD8) && (v[2]? == some 0xFF)

/-- A descending index scan: `scanDown p (hi + 1)` tests `hi, hi - 1, ..., 0`
and returns the first (largest) index satisfying `p`. -/
def scanDown (p : ℕ → Bool) : ℕ → Option ℕ
  | 0 => none
  | n + 1 => if p n then some n else scanDown p n

/-- The JPEG end-of-image test at index `i`: `view[i] = FF ∧ view[i+1] = D9`. -/
def jpegEOIAt (v : List Byte) (i : ℕ) : Bool :=
  (v[i]? == some 0xFF) && (v[i + 1]? == some 0xD9)

/-- The PNG IEND-chunk test at index `i`: `view[i+4..i+7] = 49 45 4E 44`. -/
def iendAt (v : List Byte) (i : ℕ) : Bool :=
  (v[i + 4]? == some 0x49) && (v[i + 5]? == some 0x45) &&
  (v[i + 6]? == some 0x4E) && (v[i + 7]? == some 0x44)

/-- The end-of-data offset computed by `analyzeImage` (`eofIndex` in the code,
`none` standing for the sentinel `-1`): a backward scan from `len - 2` for
JPEG (`FF D9`, offset = index + 2) and from `len - 12` for PNG (IEND tag at
`i+4..i+7`, offset = index + 12); no scan for unknown formats. -/
def eofIndex (v : List Byte) : Option ℕ :=
  if isJPG v then (scanDown (jpegEOIAt v) (v.length - 1)).map (fun i => i + 2)
  else if isPNG v then (scanDown (iendAt v) (v.length - 11)).map (fun i => i + 12)
  else none

/-- The tail extraction of `analyzeImage`: the suffix from `eofIndex` when
`0 < eofIndex < view.length`, otherwise the empty tail. -/
def extractTail (view : List Byte) : List Byte :=
  match eofIndex view with
  | some e => if 0 < e ∧ e < view.length then view.drop e else []
  | none => []

/-- Result record of `analyzeTail`. -/
structure TailInfo where
  score : ℕ
  summary : String
deriving DecidableEq

/-- Embeds `analyzeTail` from `script.js`: the additive rule-based tail score
with its summary string. -/
noncomputable def analyzeTail (tail : List Byte) : TailInfo :=
  if tail.length = 0 then
    ⟨0, "No extra data found after image end."⟩
  else
    let printable := printableFraction tail
    let entropy := shannonEntropy tail
    let sig := findSignature tail
    let score :=
      (if 100 < tail.length then 25 else 0) +
      (if (3 : ℚ) / 10 < printable then 25 else 0) +
      (if (13 : ℝ) / 2 < entropy then 25 else 0) +
      (if sig.isSome then 30 else 0)
    ⟨min 100 score,
     "Tail length: " ++ toString tail.length ++ " bytes, printable " ++
       toFixedQ 1 (printable * 100) ++ "%, entropy " ++ toFixedR 2 entropy ++
       ", " ++ (match sig with
                | some s => "found signature " ++ s
                | none => "no known signature") ++ "."⟩

/-! ### PixelAnalyzer (`analyzeLSB`) -/

/-- A decoded pixel: four 8-bit channel samples, as produced by
`ctx.getImageData` (the flat `data` array is a whole number of such
4-sample groups). -/
structure Pixel where
  r : Byte
  g : Byte
  b : Byte
  a : Byte
deriving DecidableEq

/-- How many of the first three channel samples of `p` have least-significant
bit `0` (the `lsb0++` branch of `analyzeLSB`). -/
def pixelZeros (p : Pixel) : ℕ :=
  [p.r, p.g, p.b].countP (fun c => decide (c.val % 2 = 0))

/-- How many of the first three channel samples of `p` have least-significant
bit `1` (the `lsb1++` branch of `analyzeLSB`). -/
def pixelOnes (p : Pixel) : ℕ :=
  [p.r, p.g, p.b].countP (fun c => decide (c.val % 2 = 1))

/-- Total `lsb0` counter of `analyzeLSB` over the whole grid. -/
def lsb0 (grid : List Pixel) : ℕ := (grid.map pixelZeros).sum

/-- Total `lsb1` counter of `analyzeLSB` over the whole grid. -/
def lsb1 (grid : List Pixel) : ℕ := (grid.map pixelOnes).sum

/-- Result record of `analyzeLSB`; `score = none` models the JavaScript `NaN`
the code produces on an empty grid. -/
structure LSBInfo where
  score : Option ℤ
  summary : String
deriving DecidableEq

/-- Embeds `analyzeLSB` from `script.js`.  When `total = 0` the code computes
`balance = 0 / 0 = NaN`; `Math.round`, `Math.min` and `(1 - balance)` all
propagate `NaN`, and `NaN.toFixed(2)` renders as the string `"NaN"` — the
first branch spells out exactly that propagation. -/
def analyzeLSB (grid : List Pixel) : LSBInfo :=
  let z := lsb0 grid
  let o := lsb1 grid
  if z + o = 0 then
    ⟨none, "LSB balance: NaN, 0s=" ++ toString z ++ ", 1s=" ++ toString o ++ "."⟩
  else
    let balance : ℚ := |(z : ℚ) - (o : ℚ)| / ((z : ℚ) + (o : ℚ))
    ⟨some (min 100 (round ((1 - balance) * 100))),
     "LSB balance: " ++ toFixedQ 2 (1 - balance) ++ ", 0s=" ++ toString z ++
       ", 1s=" ++ toString o ++ "."⟩

/-! ### ScoreAggregator (`analyzeImage` lines 74-92) -/

/-- The combination step of `analyzeImage`:
`Math.min(100, Math.round(tail * 0.6 + lsb * 0.4))`; a `NaN` LSB score
(`none`) propagates to a `NaN` combined score. -/
def jsCombine (tailScore : ℕ) (lsbScore : Option ℤ) : Option ℤ :=
  lsbScore.map (fun l : ℤ =>
    min 100 (round ((tailScore : ℚ) * (3 / 5) + (l : ℚ) * (2 / 5))))

/-- The level classification of `analyzeImage`; both `NaN >= 60` and
`NaN >= 30` are false in JavaScript, so a `NaN` score falls through to
`"safe"`. -/
def levelOf (score : Option ℤ) : String :=
  match score with
  | none => "safe"
  | some s => if 60 ≤ s then "alert" else if 30 ≤ s then "warn" else "safe"

/-- The headline message of `analyzeImage`, selected by the same comparisons
as `levelOf`. -/
def messageOf (score : Option ℤ) : String :=
  match score with
  | none => "✅ Image appears safe."
  | some s =>
    if 60 ≤ s then "🚨 ALERT: Suspicious hidden data likely present!"
    else if 30 ≤ s then "⚠️ Warning: Possible hidden content detected."
    else "✅ Image appears safe."

/-- The output record of `analyzeImage`. -/
structure AnalysisResult where
  level : String
  score : Option ℤ
  message : String
  tailSummary : String
  lsbSummary : String

/-- Embeds the core pipeline of `analyzeImage`: tail extraction and scoring
on the raw bytes, LSB scoring on the decoded pixel grid, then aggregation.
(The byte reading and pixel decoding I/O adapters are outside the model; the
grid is the already-decoded `ImageData` content.) -/
noncomputable def analyzeImage (view : List Byte) (grid : List Pixel) : AnalysisResult :=
  let tailInfo := analyzeTail (extractTail view)
  let lsbInfo := analyzeLSB grid
  let score := jsCombine tailInfo.score lsbInfo.score
  { level := levelOf score
    score := score
    message := messageOf score
    tailSummary := tailInfo.summary
    lsbSummary := lsbInfo.summary }

/-! ### Concrete inputs used by the claims -/

/-- A minimal valid PNG: 8-byte signature, IHDR (1×1, RGBA), one IDAT, IEND;
67 bytes, no trailing data. -/
def pngMinimal : List Byte :=
  [0x89, 0x50, 0x4E, 0x47, 0x0D, 0x0A, 0x1A, 0x0A,
   0x00, 0x00, 0x00, 0x0D, 0x49, 0x48, 0x44, 0x52,
   0x00, 0x00, 0x00, 0x01, 0x00, 0x00, 0x00, 0x01,
   0x08, 0x06, 0x00, 0x00, 0x00, 0x1F, 0x15, 0xC4, 0x89,
   0x00, 0x00, 0x00, 0x0A, 0x49, 0x44, 0x41, 0x54,
   0x78, 0x9C, 0x62, 0x00, 0x01, 0x00, 0x00, 0x05, 0x00, 0x01,
   0x0D, 0x0A, 0x2D, 0xB4,
   0x00, 0x00, 0x00, 0x00, 0x49, 0x45, 0x4E, 0x44, 0xAE, 0x42, 0x60, 0x82]

/-- The same PNG with 200 ASCII bytes (letter `A`) appended after IEND. -/
def pngTailed : List Byte := pngMinimal ++ List.replicate 200 (0x41 : Byte)

/-- A tiny JPEG-shaped buffer with one byte after its `FF D9` marker. -/
def jpegSample : List Byte := [0xFF, 0xD8, 0xFF, 0xE0, 0xFF, 0xD9, 0x41]

/-- A 14-byte buffer whose only signature-table occurrence is `50 4B 03 04`
at offset 10 — with nothing after the signature. -/
def zipAtTenShort : List Byte :=
  List.replicate 10 (0 : Byte) ++ [0x50, 0x4B, 0x03, 0x04]

/-- A 19-byte buffer with `50 4B 03 04` at offset 10 and five bytes after it. -/
def zipAtTenPadded : List Byte :=
  List.replicate 10 (0 : Byte) ++ [0x50, 0x4B, 0x03, 0x04] ++
    List.replicate 5 (0 : Byte)

end Steg
set_option maxRecDepth 8000

namespace Steg

lemma sum_count_eq_length (b : List Byte) : ∑ v : Byte, b.count v = b.length := by
  induction b with
  | nil => simp
  | cons x xs ih =>
    have : ∀ v : Byte, (x :: xs).count v = xs.count v + if x = v then 1 else 0 := by
      intro v
      rw [List.count_cons]
      simp [beq_iff_eq]
    simp only [this]
    rw [Finset.sum_add_distrib, ih]
    simp [Finset.sum_ite_eq]

lemma entropyDen_eq (b : List Byte) (hb : b ≠ []) : entropyDen b = b.length := by
  rw [entropyDen, if_neg (by simpa using hb)]

lemma count_ne_zero_length_ne_zero {b : List Byte} {v : Byte} (hc : b.count v ≠ 0) :
    b.length ≠ 0 := by
  intro h
  rw [List.length_eq_zero.mp h] at hc
  simp at hc

lemma shannonEntropy_nil : shannonEntropy ([] : List Byte) = 0 := by
  simp [shannonEntropy]

lemma shannonEntropy_nonneg (b : List Byte) : 0 ≤ shannonEntropy b := by
  apply Finset.sum_nonneg
  intro v _
  by_cases hc : b.count v = 0
  · simp [hc]
  · rw [if_neg hc]
    have hlen := count_ne_zero_length_ne_zero hc
    have hden : entropyDen b = b.length := by
      rw [entropyDen, if_neg hlen]
    have hppos : 0 < ((b.count v : ℝ) / (entropyDen b : ℝ)) := by
      apply div_pos
      · exact_mod_cast Nat.pos_of_ne_zero hc
      · rw [hden]; exact_mod_cast Nat.pos_of_ne_zero hlen
    have hple : ((b.count v : ℝ) / (entropyDen b : ℝ)) ≤ 1 := by
      rw [hden]
      apply div_le_one_of_le₀
      · exact_mod_cast List.count_le_length v b
      · positivity
    have hlog : Real.logb 2 ((b.count v : ℝ) / (entropyDen b : ℝ)) ≤ 0 :=
      Real.logb_nonpos (by norm_num) hppos.le hple
    have := mul_nonpos_of_nonneg_of_nonpos hppos.le hlog
    linarith

lemma shannonEntropy_replicate (v : Byte) (k : ℕ) :
    shannonEntropy (List.replicate (k + 1) v) = 0 := by
  rw [shannonEntropy]
  apply Finset.sum_eq_zero
  intro w _
  by_cases hw : (List.replicate (k + 1) v).count w = 0
  · simp [hw]
  · rw [if_neg hw]
    have hcw : (List.replicate (k + 1) v).count w = k + 1 := by
      rw [List.count_replicate] at hw ⊢
      by_cases h : (v == w) = true
      · rw [if_pos h]
      · rw [if_neg h] at hw; simp at hw
    have hden : entropyDen (List.replicate (k + 1) v) = k + 1 := by
      rw [entropyDen, if_neg (by simp)]
      simp
    rw [hcw, hden]
    rw [div_self (by positivity)]
    simp

lemma shannonEntropy_le_eight (b : List Byte) : shannonEntropy b ≤ 8 := by
  by_cases hb : b = []
  · rw [hb, shannonEntropy_nil]; norm_num
  · have hL : 0 < Real.log 2 := Real.log_pos (by norm_num)
    have hlen : b.length ≠ 0 := by simpa using hb
    have hden : entropyDen b = b.length := by rw [entropyDen, if_neg hlen]
    have hsum1 : ∑ v : Byte, ((b.count v : ℝ) / (entropyDen b : ℝ)) = 1 := by
      rw [← Finset.sum_div]
      rw [hden]
      rw [show ∑ v : Byte, ((b.count v : ℝ)) = ((b.length : ℕ) : ℝ) by
        rw [← Nat.cast_sum]
        exact_mod_cast congrArg (fun n : ℕ => (n : ℝ)) (sum_count_eq_length b)]
      exact div_self (by exact_mod_cast hlen)
    have hterm : ∀ v : Byte,
        (if b.count v = 0 then (0:ℝ) else
          -(((b.count v : ℝ) / (entropyDen b : ℝ)) *
            Real.logb 2 ((b.count v : ℝ) / (entropyDen b : ℝ))))
        ≤ 8 * ((b.count v : ℝ) / (entropyDen b : ℝ)) +
            ((1:ℝ)/256 - (b.count v : ℝ) / (entropyDen b : ℝ)) / Real.log 2 := by
      intro v
      by_cases hc : b.count v = 0
      · rw [if_pos hc, hc]
        simp
        positivity
      · rw [if_neg hc]
        set p : ℝ := (b.count v : ℝ) / (entropyDen b : ℝ) with hp
        have hppos : 0 < p := by
          apply div_pos
          · exact_mod_cast Nat.pos_of_ne_zero hc
          · rw [hden]; exact_mod_cast Nat.pos_of_ne_zero hlen
        have h1 : Real.log (1 / (256 * p)) ≤ 1 / (256 * p) - 1 :=
          Real.log_le_sub_one_of_pos (by positivity)
        have h2 : p * Real.log (1 / (256 * p)) ≤ 1 / 256 - p := by
          have := mul_le_mul_of_nonneg_left h1 hppos.le
          have heq : p * (1 / (256 * p) - 1) = 1 / 256 - p := by
            field_simp
            ring
          linarith [heq ▸ this]
        have h3 : Real.log (1 / (256 * p)) = -(8 * Real.log 2 + Real.log p) := by
          rw [one_div, Real.log_inv, Real.log_mul (by norm_num) (ne_of_gt hppos)]
          rw [show (256:ℝ) = 2 ^ (8:ℕ) by norm_num, Real.log_pow]
          norm_num
        have hkey : -(p * Real.log p) ≤ 8 * Real.log 2 * p + (1 / 256 - p) := by
          rw [h3] at h2
          nlinarith
        rw [← Real.log_div_log]
        have e1 : -(p * (Real.log p / Real.log 2)) = (-(p * Real.log p)) / Real.log 2 := by
          ring
        have e2 : 8 * p + (1 / 256 - p) / Real.log 2
            = (8 * Real.log 2 * p + (1 / 256 - p)) / Real.log 2 := by
          field_simp
          ring
        rw [e1, e2]
        exact (div_le_div_iff_of_pos_right hL).mpr hkey
    calc shannonEntropy b
        ≤ ∑ v : Byte, (8 * ((b.count v : ℝ) / (entropyDen b : ℝ)) +
            ((1:ℝ)/256 - (b.count v : ℝ) / (entropyDen b : ℝ)) / Real.log 2) :=
          Finset.sum_le_sum (fun v _ => hterm v)
      _ = 8 := by
          rw [Finset.sum_add_distrib, ← Finset.mul_sum, hsum1]
          rw [← Finset.sum_div, Finset.sum_sub_distrib, hsum1]
          rw [Finset.sum_const, Finset.card_univ, Fintype.card_fin, nsmul_eq_mul]
          norm_num

end Steg
namespace Steg

lemma sigAt_none_of_length_le (data : List Byte) (i : ℕ) (h : data.length ≤ i) :
    sigAt data i = none := by
  have h0 : data[i]? = none := List.getElem?_eq_none h
  simp [sigAt, sigTable, List.find?, matchAt, h0]

lemma scanUp_none (data : List Byte) :
    ∀ fuel i, (∀ j, i ≤ j → j < i + fuel → sigAt data j = none) →
      scanUp data i fuel = none := by
  intro fuel
  induction fuel with
  | zero => intro i _; rfl
  | succ f ih =>
    intro i h
    have hs := h i le_rfl (by omega)
    simp only [scanUp, hs]
    exact ih (i + 1) (fun j hj1 hj2 => h j (by omega) (by omega))

lemma scanUp_found (data : List Byte) (s : String) :
    ∀ fuel i k, i ≤ k → k < i + fuel →
      (∀ j, i ≤ j → j < k → sigAt data j = none) →
      sigAt data k = some s →
      scanUp data i fuel = some s := by
  intro fuel
  induction fuel with
  | zero => intro i k h1 h2 _ _; exact absurd h2 (by omega)
  | succ f ih =>
    intro i k hik hk h hs
    by_cases hi : i = k
    · subst hi
      simp only [scanUp, hs]
    · have h0 : sigAt data i = none := h i le_rfl (by omega)
      simp only [scanUp, h0]
      exact ih (i + 1) k (by omega) (by omega) (fun j hj1 hj2 => h j (by omega) hj2) hs

lemma sigAt_zip (data : List Byte) (i : ℕ)
    (h : matchAt data i [0x50, 0x4B, 0x03, 0x04] = true) :
    sigAt data i = some "ZIP" := by
  simp [sigAt, sigTable, List.find?, h]

lemma sigAt_cases (data : List Byte) (i : ℕ) :
    sigAt data i = none ∨ sigAt data i = some "ZIP" ∨ sigAt data i = some "PDF" ∨
    sigAt data i = some "RAR" ∨ sigAt data i = some "EXE" := by
  rw [sigAt, sigTable]
  cases hz : matchAt data i [0x50, 0x4B, 0x03, 0x04] <;>
    cases hp : matchAt data i [0x25, 0x50, 0x44, 0x46] <;>
      cases hr : matchAt data i [0x52, 0x61, 0x72, 0x21] <;>
        cases he : matchAt data i [0x4D, 0x5A] <;>
          simp [List.find?, hz, hp, hr, he]

lemma scanUp_cases (data : List Byte) :
    ∀ fuel i, scanUp data i fuel = none ∨ scanUp data i fuel = some "ZIP" ∨
      scanUp data i fuel = some "PDF" ∨ scanUp data i fuel = some "RAR" ∨
      scanUp data i fuel = some "EXE" := by
  intro fuel
  induction fuel with
  | zero => intro i; exact Or.inl rfl
  | succ f ih =>
    intro i
    rcases sigAt_cases data i with h | h | h | h | h
    · simp only [scanUp, h]
      exact ih (i + 1)
    all_goals simp [scanUp, h]

end Steg
namespace Steg

/-- The observable part of a pixel that `analyzeLSB` reads: the
least-significant bits of the first three channel samples. -/
def lsbAgree (p q : Pixel) : Prop :=
  p.r.val % 2 = q.r.val % 2 ∧ p.g.val % 2 = q.g.val % 2 ∧ p.b.val % 2 = q.b.val % 2

lemma pixel_counts_eq {p q : Pixel} (h : lsbAgree p q) :
    pixelZeros p = pixelZeros q ∧ pixelOnes p = pixelOnes q := by
  obtain ⟨h1, h2, h3⟩ := h
  constructor <;>
    simp [pixelZeros, pixelOnes, List.countP_cons, List.countP_nil, h1, h2, h3]

lemma lsb_counts_eq {g1 g2 : List Pixel} (h : List.Forall₂ lsbAgree g1 g2) :
    lsb0 g1 = lsb0 g2 ∧ lsb1 g1 = lsb1 g2 := by
  induction h with
  | nil => exact ⟨rfl, rfl⟩
  | cons hpq _ ih =>
    obtain ⟨e0, e1⟩ := pixel_counts_eq hpq
    simp only [lsb0, lsb1, List.map_cons, List.sum_cons] at ih ⊢
    omega

lemma pixel_total (p : Pixel) : pixelZeros p + pixelOnes p = 3 := by
  rcases Nat.mod_two_eq_zero_or_one p.r.val with h1 | h1 <;>
    rcases Nat.mod_two_eq_zero_or_one p.g.val with h2 | h2 <;>
      rcases Nat.mod_two_eq_zero_or_one p.b.val with h3 | h3 <;>
        simp [pixelZeros, pixelOnes, List.countP_cons, List.countP_nil, h1, h2, h3]

lemma lsb_total (g : List Pixel) : lsb0 g + lsb1 g = 3 * g.length := by
  induction g with
  | nil => rfl
  | cons p l ih =>
    have := pixel_total p
    simp only [lsb0, lsb1, List.map_cons, List.sum_cons, List.length_cons] at ih ⊢
    omega

lemma round_mono_q {x y : ℚ} (h : x ≤ y) : round x ≤ round y := by
  rw [round_eq, round_eq]
  exact Int.floor_le_floor (by linarith)

end Steg
namespace Steg

/-- C1: on a pixel grid with no channel samples the code does not return the
sub-score 0 the specification requires; it performs `0 / 0` and returns the
resulting `NaN` (modelled `none`).  This theorem evaluates `analyzeLSB` at the
failing input, the empty grid. -/
theorem C1_analyzeLSB_empty_grid_nan : (analyzeLSB ([] : List Pixel)).score = none := rfl

/-- C5: whenever the end-of-data offset is computed and lies strictly between
0 and the buffer length, the tail is the suffix from that offset with length
`view.length - e`; otherwise (no marker, or offset at/after the end) the tail
is empty. -/
theorem C5_tail_region (view : List Byte) :
    (∀ e, eofIndex view = some e → 0 < e → e < view.length →
      extractTail view = view.drop e ∧ (extractTail view).length = view.length - e) ∧
    ((∀ e, eofIndex view = some e → e = 0 ∨ view.length ≤ e) → extractTail view = []) := by
  constructor
  · intro e he h1 h2
    simp only [extractTail, he]
    rw [if_pos ⟨h1, h2⟩]
    exact ⟨rfl, List.length_drop e view⟩
  · intro h
    cases he : eofIndex view with
    | none => simp [extractTail, he]
    | some e =>
      simp only [extractTail, he]
      rw [if_neg]
      rintro ⟨g1, g2⟩
      rcases h e he with h0 | h0 <;> omega

/-- Witness for C5, at a concrete JPEG-shaped buffer whose `FF D9` marker is
followed by one trailing byte. -/
theorem C5_witness :
    extractTail jpegSample = jpegSample.drop 6 ∧
    (extractTail jpegSample).length = jpegSample.length - 6 :=
  (C5_tail_region jpegSample).1 6 (by decide) (by decide) (by decide)

/-- C9: the signature scanner can never answer "APK": because the ZIP table
entry has the identical byte pattern and precedes the APK entry, every scan
result is `none` or one of "ZIP", "PDF", "RAR", "EXE". -/
theorem C9_never_apk (data : List Byte) :
    findSignature data = none ∨ findSignature data = some "ZIP" ∨
    findSignature data = some "PDF" ∨ findSignature data = some "RAR" ∨
    findSignature data = some "EXE" := by
  rw [findSignature]
  exact scanUp_cases data (data.length - 8) 0

/-- C10: the LSB analysis reads nothing but the least-significant bit of the
first three channel samples of each pixel: grids of equal pixel count that
agree on those bits produce identical counters, score and summary. -/
theorem C10_lsb_extensionality (g1 g2 : List Pixel)
    (h : List.Forall₂ lsbAgree g1 g2) :
    lsb0 g1 = lsb0 g2 ∧ lsb1 g1 = lsb1 g2 ∧ analyzeLSB g1 = analyzeLSB g2 := by
  obtain ⟨e0, e1⟩ := lsb_counts_eq h
  refine ⟨e0, e1, ?_⟩
  simp only [analyzeLSB, e0, e1]

/-- Witness for C10: two one-pixel grids that differ in the alpha channel and
in every upper bit of the colour channels, but share the three colour LSBs. -/
theorem C10_witness :
    lsb0 [⟨0, 0, 0, 7⟩] = lsb0 [⟨2, 4, 6, 0⟩] ∧
    lsb1 [⟨0, 0, 0, 7⟩] = lsb1 [⟨2, 4, 6, 0⟩] ∧
    analyzeLSB [⟨0, 0, 0, 7⟩] = analyzeLSB [⟨2, 4, 6, 0⟩] :=
  C10_lsb_extensionality _ _
    (List.Forall₂.cons ⟨by decide, by decide, by decide⟩ List.Forall₂.nil)

/-- C3: the tail scorer returns score 0 with the fixed no-extra-data summary
on an empty tail, and otherwise the clamped sum of the four rule bonuses. -/
theorem C3_tail_score_rule (t : List Byte) :
    analyzeTail [] = ⟨0, "No extra data found after image end."⟩ ∧
    (t ≠ [] → (analyzeTail t).score =
      min 100 ((if 100 < t.length then 25 else 0) +
        (if (3 : ℚ) / 10 < printableFraction t then 25 else 0) +
        (if (13 : ℝ) / 2 < shannonEntropy t then 25 else 0) +
        (if (findSignature t).isSome then 30 else 0))) := by
  refine ⟨rfl, fun ht => ?_⟩
  rw [analyzeTail, if_neg (by simpa using ht)]

/-- Witness for C3, at the one-byte tail `[0x41]`. -/
theorem C3_witness :
    (analyzeTail [(0x41 : Byte)]).score =
      min 100 ((if 100 < [(0x41 : Byte)].length then 25 else 0) +
        (if (3 : ℚ) / 10 < printableFraction [(0x41 : Byte)] then 25 else 0) +
        (if (13 : ℝ) / 2 < shannonEntropy [(0x41 : Byte)] then 25 else 0) +
        (if (findSignature [(0x41 : Byte)]).isSome then 30 else 0)) :=
  (C3_tail_score_rule [(0x41 : Byte)]).2 (by decide)

end Steg
namespace Steg

/-- Counterexample for C7: a 14-byte buffer whose only table-entry occurrence
is `50 4B 03 04` at offset 10.  Because the scan loop stops at
`data.length - 8 = 6`, offset 10 is never examined and the scanner returns
`none` instead of the ZIP/APK match the claim asserts. -/
theorem C7_counterexample :
    matchAt zipAtTenShort 10 [0x50, 0x4B, 0x03, 0x04] = true ∧
    entryElsewhere zipAtTenShort 10 = false ∧
    findSignature zipAtTenShort = none :=
  ⟨by decide, by decide, by decide⟩

/-- C7 as amended: the positive half additionally requires the buffer to
extend at least 9 bytes past offset 10 (length ≥ 19), so the scan loop
`i < length - 8` actually reaches offset 10; the scanner then answers "ZIP"
(the first table entry for that pattern).  The negative half is unchanged:
with no table entry at any in-range offset the scanner returns `none`. -/
theorem C7_signature_scan (data : List Byte) :
    (19 ≤ data.length →
      matchAt data 10 [0x50, 0x4B, 0x03, 0x04] = true →
      (∀ i, i < data.length → i ≠ 10 → sigAt data i = none) →
      findSignature data = some "ZIP") ∧
    ((∀ i, i < data.length → sigAt data i = none) → findSignature data = none) := by
  constructor
  · intro hlen hzip hnone
    rw [findSignature]
    apply scanUp_found data "ZIP" (data.length - 8) 0 10 (by omega) (by omega)
    · intro j _ hj
      exact hnone j (by omega) (by omega)
    · exact sigAt_zip data 10 hzip
  · intro hnone
    rw [findSignature]
    apply scanUp_none
    intro j hj1 hj2
    exact hnone j (by omega)

/-- Witness for C7: the padded buffer (signature at offset 10, five bytes of
slack) is found, and the empty buffer with no entries yields `none`. -/
theorem C7_witness :
    findSignature zipAtTenPadded = some "ZIP" ∧
    findSignature ([] : List Byte) = none :=
  ⟨(C7_signature_scan zipAtTenPadded).1 (by decide) (by decide) (by decide),
   (C7_signature_scan ([] : List Byte)).2 (by decide)⟩

end Steg
namespace Steg

/-- C2: for sub-scores in [0,100] the combination equals
`round (min 100 (tail*0.6 + lsb*0.4))` (the code's `min (100, round ...)`
agrees on this domain), the level thresholds are 60 and 30, and the three
specified instances evaluate as stated. -/
theorem C2_aggregate_score_and_level :
    (∀ (t : ℕ) (l : ℤ), t ≤ 100 → 0 ≤ l → l ≤ 100 →
      jsCombine t (some l) =
        some (round (min (100 : ℚ) ((t : ℚ) * (3 / 5) + (l : ℚ) * (2 / 5)))) ∧
      ∀ s, jsCombine t (some l) = some s →
        (60 ≤ s → levelOf (some s) = "alert") ∧
        (30 ≤ s → s < 60 → levelOf (some s) = "warn") ∧
        (s < 30 → levelOf (some s) = "safe")) ∧
    (jsCombine 100 (some (100 : ℤ)) = some 100 ∧ levelOf (jsCombine 100 (some (100 : ℤ))) = "alert") ∧
    (jsCombine 0 (some (0 : ℤ)) = some 0 ∧ levelOf (jsCombine 0 (some (0 : ℤ))) = "safe") ∧
    (jsCombine 50 (some (50 : ℤ)) = some 50 ∧ levelOf (jsCombine 50 (some (50 : ℤ))) = "warn") := by
  have hinst1 : jsCombine 100 (some (100 : ℤ)) = some 100 := by
    rw [jsCombine]
    simp only [Option.map_some']
    norm_num
  have hinst2 : jsCombine 0 (some (0 : ℤ)) = some 0 := by
    rw [jsCombine]
    simp only [Option.map_some']
    norm_num
  have hinst3 : jsCombine 50 (some (50 : ℤ)) = some 50 := by
    rw [jsCombine]
    simp only [Option.map_some']
    norm_num
  refine ⟨?_, ⟨hinst1, ?_⟩, ⟨hinst2, ?_⟩, ⟨hinst3, ?_⟩⟩
  · intro t l ht hl0 hl
    have ht' : (t : ℚ) ≤ 100 := by exact_mod_cast ht
    have hl' : (l : ℚ) ≤ 100 := by exact_mod_cast hl
    have hx : (t : ℚ) * (3 / 5) + (l : ℚ) * (2 / 5) ≤ 100 := by linarith
    constructor
    · rw [jsCombine]
      simp only [Option.map_some']
      congr 1
      rw [min_eq_right hx]
      have hr : round ((t : ℚ) * (3 / 5) + (l : ℚ) * (2 / 5)) ≤ 100 := by
        have := round_mono_q hx
        simpa using this
      exact min_eq_right hr
    · intro s _
      refine ⟨fun h1 => ?_, fun h1 h2 => ?_, fun h1 => ?_⟩
      · simp [levelOf, if_pos h1]
      · simp only [levelOf]
        rw [if_neg (by omega), if_pos h1]
      · simp only [levelOf]
        rw [if_neg (by omega), if_neg (by omega)]
  · rw [hinst1]; simp [levelOf]
  · rw [hinst2]; simp [levelOf]
  · rw [hinst3]; simp [levelOf]

/-- Witness for C2, applying the universal part at tail 60 and LSB 30: the
combined score is `round (min 100 48) = 48`, classified "warn". -/
theorem C2_witness :
    jsCombine 60 (some (30 : ℤ)) =
      some (round (min (100 : ℚ) (((60 : ℕ) : ℚ) * (3 / 5) + ((30 : ℤ) : ℚ) * (2 / 5)))) ∧
    levelOf (some (48 : ℤ)) = "warn" :=
  ⟨(C2_aggregate_score_and_level.1 60 30 (by norm_num) (by norm_num) (by norm_num)).1,
   ((C2_aggregate_score_and_level.1 60 30 (by norm_num) (by norm_num)
      (by norm_num)).2 48 (by norm_num [jsCombine])).2.1 (by norm_num) (by norm_num)⟩

end Steg
namespace Steg

/-- C8: the Shannon entropy lies in [0,8] for every byte sequence, is 0 for
the empty sequence (whose denominator is treated as 1), and is 0 for every
non-empty sequence of one repeated byte value. -/
theorem C8_entropy_range (b : List Byte) :
    (0 ≤ shannonEntropy b ∧ shannonEntropy b ≤ 8) ∧
    shannonEntropy ([] : List Byte) = 0 ∧
    (∀ (v : Byte) (k : ℕ), shannonEntropy (List.replicate (k + 1) v) = 0) :=
  ⟨⟨shannonEntropy_nonneg b, shannonEntropy_le_eight b⟩, shannonEntropy_nil,
   fun v k => shannonEntropy_replicate v k⟩

/-- C4: the tail sub-score is always clamped to [0,100] and the LSB sub-score
is in [0,100] on every non-empty grid, but the claimed invariant fails as a
whole: on an empty pixel grid the LSB sub-score — and with it the aggregate
score — is the JavaScript `NaN` (modelled `none`), not a number in [0,100].
The last conjunct evaluates the pipeline at that failing input. -/
theorem C4_score_range_violated_by_nan :
    (∀ t : List Byte, (analyzeTail t).score ≤ 100) ∧
    (∀ g : List Pixel, g = [] ∨
      ∃ s, (analyzeLSB g).score = some s ∧ 0 ≤ s ∧ s ≤ 100) ∧
    (analyzeImage [] []).score = none := by
  refine ⟨?_, ?_, rfl⟩
  · intro t
    rw [analyzeTail]
    split
    · simp
    · simp [TailInfo.score]
  · intro g
    rcases eq_or_ne g [] with hg | hg
    · exact Or.inl hg
    · right
      have htot : lsb0 g + lsb1 g ≠ 0 := by
        rw [lsb_total]
        have : g.length ≠ 0 := by simpa using hg
        omega
      have hz : (0 : ℚ) ≤ (lsb0 g : ℚ) := by positivity
      have ho : (0 : ℚ) ≤ (lsb1 g : ℚ) := by positivity
      have hsum : (0 : ℚ) < (lsb0 g : ℚ) + (lsb1 g : ℚ) := by
        have : 0 < lsb0 g + lsb1 g := Nat.pos_of_ne_zero htot
        exact_mod_cast this
      set bal : ℚ := |(lsb0 g : ℚ) - (lsb1 g : ℚ)| / ((lsb0 g : ℚ) + (lsb1 g : ℚ)) with hbal
      have hbal0 : 0 ≤ bal := div_nonneg (abs_nonneg _) hsum.le
      have hbal1 : bal ≤ 1 := by
        rw [hbal, div_le_one hsum]
        rw [abs_le]
        constructor <;> linarith
      have hx0 : (0 : ℚ) ≤ (1 - bal) * 100 := by nlinarith
      have hx1 : (1 - bal) * 100 ≤ 100 := by nlinarith
      have hr0 : (0 : ℤ) ≤ round ((1 - bal) * 100) := by
        have := round_mono_q hx0
        simpa using this
      have hr1 : round ((1 - bal) * 100) ≤ 100 := by
        have := round_mono_q hx1
        simpa using this
      refine ⟨min 100 (round ((1 - bal) * 100)), ?_, ?_, ?_⟩
      · simp only [analyzeLSB, if_neg htot]
      · exact le_min (by norm_num) hr0
      · exact min_le_left _ _

/-- C6: the minimal valid PNG yields an empty tail with score 0, and the same
PNG with 200 ASCII bytes appended yields a 200-byte tail whose score is at
least 50 (the length and printable bonuses). -/
theorem C6_png_tail_scores :
    extractTail pngMinimal = [] ∧
    (analyzeTail (extractTail pngMinimal)).score = 0 ∧
    (extractTail pngTailed).length = 200 ∧
    50 ≤ (analyzeTail (extractTail pngTailed)).score := by
  have hmin : extractTail pngMinimal = [] := by decide
  have hT : extractTail pngTailed = List.replicate 200 (0x41 : Byte) := by decide
  have hp : (3 : ℚ) / 10 < printableFraction (List.replicate 200 (0x41 : Byte)) := by
    rw [printableFraction]
    simp only [List.countP_replicate, List.length_replicate]
    rw [if_neg (by decide), if_pos (by decide)]
    norm_num
  have hsig : (findSignature (List.replicate 200 (0x41 : Byte))).isSome = false := by
    decide
  refine ⟨hmin, by rw [hmin]; rfl, by rw [hT]; rfl, ?_⟩
  rw [hT]
  simp only [analyzeTail, List.length_replicate]
  rw [if_neg (by norm_num : ¬(200 = 0))]
  rw [if_pos (by norm_num : 100 < 200)]
  rw [if_pos hp]
  rw [hsig]
  rw [if_neg Bool.false_ne_true]
  split_ifs <;> decide

end Steg
